import Mathlib

/-!
Verification of the SFUSD data-collection repository.

Component A (identity reconciler) and component B (tax record merger) live in
`search_ptas.py` / `pull_tax_data.py`, which the source tree only documents
through its README; their definitions below are modelled from the spec.
Component C (the CALPADS spreadsheet aggregator) is embedded from
`src/data/calpads/merged/data-merger.ipynb`.
-/

/-- Modelled from the spec: an override record `(identifier, source-name,
canonical-name)` as found in `ein_recodes.csv` / `extra_ptos.csv`; the scripts
reading them are absent from src/. -/
structure OverrideRecord where
  ein : String
  srcName : String
  canonical : String
  deriving DecidableEq, Repr

/-- Modelled from the spec: dict-style insert/overwrite of
`(identifier → canonical-name)` into the result mapping. -/
def insertName (m : List (String × String)) (k v : String) : List (String × String) :=
  m.filter (fun p => p.1 != k) ++ [(k, v)]

/-- Modelled from the spec (§4.1): `reconcile` of `pull_tax_data.py`, absent from
src/. Pass 1 inserts recode-table records only for identifiers in the primary
set; pass 2 inserts override-table records unconditionally, after pass 1. -/
def reconcile (P : List String) (R O : List OverrideRecord) : List (String × String) :=
  O.foldl (fun m r => insertName m r.ein r.canonical)
    (R.foldl
      (fun m r => if P.contains r.ein then insertName m r.ein r.canonical else m) [])

/-- Look an identifier up in a result mapping. -/
def getName (m : List (String × String)) (k : String) : Option String :=
  (m.find? (fun p => p.1 == k)).map (·.2)

/-- How many entries of the mapping bear key `k`. -/
def keyCount (m : List (String × String)) (k : String) : Nat :=
  m.countP (fun p => p.1 == k)

/-- The canonical name the LAST record of table `t` gives to identifier `k`
(dict insertion is last-row-wins within one table). -/
def lastName (t : List OverrideRecord) (k : String) : Option String :=
  match t with
  | [] => none
  | r :: rest =>
    match lastName rest k with
    | some v => some v
    | none => if r.ein == k then some r.canonical else none

/-- Modelled from the spec: a tax filing row of `sf_pta_taxes.csv`, an
identifier plus opaque further fields; the script producing it is absent from
src/. -/
structure TaxRow where
  ein : String
  fields : List (String × String)
  deriving DecidableEq, Repr

/-- Modelled from the spec (§4.2): `merge` of `pull_tax_data.py`, absent from
src/. Every row is kept; the canonical name is attached when the mapping has
the row's identifier and left missing otherwise. -/
def merge (rows : List TaxRow) (m : List (String × String)) :
    List (TaxRow × Option String) :=
  rows.map (fun r => (r, getName m r.ein))

/-! ### Lemmas about the reconciler's mapping operations -/

theorem keyCount_insertName_self (m : List (String × String)) (k v : String) :
    keyCount (insertName m k v) k = 1 := by
  unfold keyCount insertName
  rw [List.countP_append]
  have h0 : (m.filter (fun p => p.1 != k)).countP (fun p => p.1 == k) = 0 := by
    rw [List.countP_eq_zero]
    intro p hp
    have := List.of_mem_filter hp
    simp only [bne_iff_ne, ne_eq, decide_eq_true_eq] at this ⊢
    simpa using this
  simp [h0]

theorem keyCount_insertName_ne (m : List (String × String)) (k v k' : String)
    (h : k' ≠ k) : keyCount (insertName m k v) k' = keyCount m k' := by
  unfold keyCount insertName
  rw [List.countP_append]
  have h1 : (List.countP (fun p => p.1 == k') [(k, v)]) = 0 := by
    simp [Ne.symm h]
  rw [h1, Nat.add_zero]
  rw [List.countP_filter]
  apply List.countP_congr
  intro p _
  constructor
  · intro hp
    have hp' : p.1 = k' ∧ p.1 ≠ k := by simpa using hp
    simpa using hp'.1
  · intro hp
    have hpk : p.1 = k' := by simpa using hp
    simp [hpk, h]

theorem getName_insertName_self (m : List (String × String)) (k v : String) :
    getName (insertName m k v) k = some v := by
  unfold getName insertName
  rw [List.find?_append]
  have h0 : (m.filter (fun p => p.1 != k)).find? (fun p => p.1 == k) = none := by
    rw [List.find?_eq_none]
    intro p hp
    have := List.of_mem_filter hp
    simp only [bne_iff_ne, ne_eq, decide_eq_true_eq] at this
    simpa using this
  simp [h0]

theorem find?_filter_ne (m : List (String × String)) (k k' : String) (h : k' ≠ k) :
    (m.filter (fun p => p.1 != k)).find? (fun p => p.1 == k') =
      m.find? (fun p => p.1 == k') := by
  induction m with
  | nil => rfl
  | cons p rest ih =>
    by_cases hp : p.1 = k
    · simp [List.filter_cons, List.find?_cons, hp, h, Ne.symm h, ih]
    · by_cases hq : p.1 = k'
      · simp [List.filter_cons, List.find?_cons, hp, hq, h, Ne.symm h]
      · simp [List.filter_cons, List.find?_cons, hp, hq, ih]

theorem getName_insertName_ne (m : List (String × String)) (k v k' : String)
    (h : k' ≠ k) : getName (insertName m k v) k' = getName m k' := by
  unfold getName insertName
  rw [List.find?_append, find?_filter_ne m k k' h]
  cases hf : m.find? (fun p => p.1 == k') with
  | some p => rfl
  | none => simp [List.find?_cons, Ne.symm h]

theorem keyCount_fold_override_of_not_mem (O : List OverrideRecord)
    (m : List (String × String)) (k : String) (h : ∀ r ∈ O, r.ein ≠ k) :
    keyCount (O.foldl (fun m r => insertName m r.ein r.canonical) m) k = keyCount m k := by
  induction O generalizing m with
  | nil => rfl
  | cons r rest ih =>
    rw [List.foldl_cons, ih _ (fun q hq => h q (List.mem_cons_of_mem r hq)),
      keyCount_insertName_ne m r.ein r.canonical k
        (fun hk => h r (List.mem_cons_self r rest) (hk.symm))]

theorem getName_fold_override_of_not_mem (O : List OverrideRecord)
    (m : List (String × String)) (k : String) (h : ∀ r ∈ O, r.ein ≠ k) :
    getName (O.foldl (fun m r => insertName m r.ein r.canonical) m) k = getName m k := by
  induction O generalizing m with
  | nil => rfl
  | cons r rest ih =>
    rw [List.foldl_cons, ih _ (fun q hq => h q (List.mem_cons_of_mem r hq)),
      getName_insertName_ne m r.ein r.canonical k
        (fun hk => h r (List.mem_cons_self r rest) (hk.symm))]

theorem keyCount_fold_override_of_mem (O : List OverrideRecord)
    (m : List (String × String)) (k : String) (h : ∃ r ∈ O, r.ein = k) :
    keyCount (O.foldl (fun m r => insertName m r.ein r.canonical) m) k = 1 := by
  induction O generalizing m with
  | nil => obtain ⟨r, hr, _⟩ := h; exact absurd hr (List.not_mem_nil r)
  | cons r rest ih =>
    rw [List.foldl_cons]
    by_cases hrest : ∃ q ∈ rest, q.ein = k
    · exact ih _ hrest
    · obtain ⟨q, hq, hqk⟩ := h
      rcases List.mem_cons.mp hq with hq | hq
      · subst hq
        rw [keyCount_fold_override_of_not_mem rest _ k
          (fun q' hq' hk => hrest ⟨q', hq', hk⟩)]
        rw [hqk, keyCount_insertName_self]
      · exact absurd ⟨q, hq, hqk⟩ hrest

theorem mem_of_lastName_isSome (O : List OverrideRecord) (k : String)
    (h : ∃ v, lastName O k = some v) : ∃ r ∈ O, r.ein = k := by
  induction O with
  | nil =>
    obtain ⟨v, hv⟩ := h
    rw [lastName] at hv
    exact Option.noConfusion hv
  | cons r rest ih =>
    obtain ⟨v, hv⟩ := h
    rw [lastName] at hv
    cases hlast : lastName rest k with
    | some w =>
      obtain ⟨q, hq, hqk⟩ := ih ⟨w, hlast⟩
      exact ⟨q, List.mem_cons_of_mem r hq, hqk⟩
    | none =>
      rw [hlast] at hv
      by_cases hr : r.ein = k
      · exact ⟨r, List.mem_cons_self r rest, hr⟩
      · rw [if_neg (by simpa using hr)] at hv
        exact Option.noConfusion hv

theorem lastName_isSome_of_mem (O : List OverrideRecord) (k : String)
    (h : ∃ r ∈ O, r.ein = k) : ∃ v, lastName O k = some v := by
  induction O with
  | nil => obtain ⟨r, hr, _⟩ := h; exact absurd hr (List.not_mem_nil r)
  | cons r rest ih =>
    by_cases hrest : ∃ q ∈ rest, q.ein = k
    · obtain ⟨v, hv⟩ := ih hrest
      exact ⟨v, by rw [lastName, hv]⟩
    · obtain ⟨q, hq, hqk⟩ := h
      rcases List.mem_cons.mp hq with hq | hq
      · subst hq
        refine ⟨q.canonical, ?_⟩
        rw [lastName]
        cases hlast : lastName rest k with
        | some v => exact absurd (mem_of_lastName_isSome rest k ⟨v, hlast⟩) hrest
        | none => simp [hqk]
      · exact absurd ⟨q, hq, hqk⟩ hrest

theorem getName_fold_override (O : List OverrideRecord)
    (m : List (String × String)) (k : String) :
    getName (O.foldl (fun m r => insertName m r.ein r.canonical) m) k =
      ((lastName O k).rec (getName m k) (fun v => some v)) := by
  induction O generalizing m with
  | nil => rfl
  | cons r rest ih =>
    rw [List.foldl_cons, ih, lastName]
    cases hlast : lastName rest k with
    | some v => rfl
    | none =>
      by_cases hr : r.ein = k
      · rw [if_pos (by simpa using hr), ← hr, getName_insertName_self]
      · rw [if_neg (by simpa using hr),
          getName_insertName_ne m r.ein r.canonical k (fun hk => hr hk.symm)]

theorem getName_eq_none_of_keyCount_zero (m : List (String × String)) (k : String)
    (h : keyCount m k = 0) : getName m k = none := by
  unfold keyCount at h
  unfold getName
  rw [List.find?_eq_none.mpr (List.countP_eq_zero.mp h)]
  rfl

theorem keyCount_fold_recode_not_primary (R : List OverrideRecord) (P : List String)
    (m : List (String × String)) (k : String) (hP : k ∉ P) :
    keyCount (R.foldl
      (fun m r => if P.contains r.ein then insertName m r.ein r.canonical else m) m) k
      = keyCount m k := by
  induction R generalizing m with
  | nil => rfl
  | cons r rest ih =>
    rw [List.foldl_cons]
    by_cases hc : P.contains r.ein
    · rw [if_pos hc, ih]
      apply keyCount_insertName_ne
      intro hk
      exact hP (hk ▸ (by simpa using hc))
    · rw [if_neg hc, ih]

/-- C1: every identifier named in the override table appears in `reconcile`'s
output mapping exactly once, bound to the canonical name the override table
gives it (its last row for that identifier), for any primary set and recode
table: the override pass runs after the recode pass and overwrites
unconditionally. -/
theorem reconcile_override_identifier_once_with_override_name
    (P : List String) (R O : List OverrideRecord) (k : String)
    (h : ∃ r ∈ O, r.ein = k) :
    keyCount (reconcile P R O) k = 1 ∧
      getName (reconcile P R O) k = lastName O k := by
  constructor
  · exact keyCount_fold_override_of_mem O _ k h
  · rw [reconcile, getName_fold_override]
    obtain ⟨v, hv⟩ := lastName_isSome_of_mem O k h
    rw [hv]

/-- Witness for C1: the spec's scenario — identifier in P, R and O at once;
the override table's name wins and the identifier is mapped exactly once. -/
theorem reconcile_override_identifier_once_with_override_name_witness :
    keyCount (reconcile ["11-1111111"]
        [⟨"11-1111111", "A Pta", "Lincoln ES"⟩]
        [⟨"11-1111111", "A Org", "Washington ES"⟩]) "11-1111111" = 1 ∧
      getName (reconcile ["11-1111111"]
        [⟨"11-1111111", "A Pta", "Lincoln ES"⟩]
        [⟨"11-1111111", "A Org", "Washington ES"⟩]) "11-1111111" =
        some "Washington ES" := by
  have h := reconcile_override_identifier_once_with_override_name
    ["11-1111111"] [⟨"11-1111111", "A Pta", "Lincoln ES"⟩]
    [⟨"11-1111111", "A Org", "Washington ES"⟩] "11-1111111"
    ⟨⟨"11-1111111", "A Org", "Washington ES"⟩, by decide, rfl⟩
  exact ⟨h.1, h.2.trans (by decide)⟩

/-- C2: `merge` returns exactly as many rows as it was given, and a row whose
identifier is absent from the canonical mapping is retained, paired with a
missing canonical-name field, rather than dropped. -/
theorem merge_row_count_and_unmapped_rows_kept
    (rows : List TaxRow) (m : List (String × String)) :
    (merge rows m).length = rows.length ∧
      ∀ r ∈ rows, getName m r.ein = none →
        (r, (none : Option String)) ∈ merge rows m := by
  refine ⟨List.length_map rows _, ?_⟩
  intro r hr hnone
  have hmem : (r, getName m r.ein) ∈ merge rows m :=
    List.mem_map_of_mem _ hr
  rwa [hnone] at hmem

/-- Witness for C2: a single row whose identifier no mapping entry names is
kept, with no canonical name attached. -/
theorem merge_row_count_and_unmapped_rows_kept_witness :
    (merge [⟨"22-2222222", [("totrevenue", "1000")]⟩]
        [("33-3333333", "Lincoln ES")]).length = 1 ∧
      ((⟨"22-2222222", [("totrevenue", "1000")]⟩ : TaxRow), (none : Option String)) ∈
        merge [⟨"22-2222222", [("totrevenue", "1000")]⟩]
          [("33-3333333", "Lincoln ES")] := by
  have h := merge_row_count_and_unmapped_rows_kept
    [⟨"22-2222222", [("totrevenue", "1000")]⟩] [("33-3333333", "Lincoln ES")]
  exact ⟨h.1, h.2 _ (by decide) (by decide)⟩

/-- C3: an identifier the recode table names but that is outside the primary
set never appears in `reconcile`'s output — neither as a key nor with a name —
unless the override table also names it. -/
theorem reconcile_nonprimary_recode_absent
    (P : List String) (R O : List OverrideRecord) (k : String)
    (hR : ∃ r ∈ R, r.ein = k) (hP : k ∉ P) (hO : ∀ r ∈ O, r.ein ≠ k) :
    keyCount (reconcile P R O) k = 0 ∧ getName (reconcile P R O) k = none := by
  have h0 : keyCount (reconcile P R O) k = 0 := by
    rw [reconcile, keyCount_fold_override_of_not_mem O _ k hO,
      keyCount_fold_recode_not_primary R P [] k hP]
    rfl
  exact ⟨h0, getName_eq_none_of_keyCount_zero _ _ h0⟩

/-- Witness for C3: a recode-table row for an identifier outside the primary
set and absent from the override table leaves no trace in the output. -/
theorem reconcile_nonprimary_recode_absent_witness :
    keyCount (reconcile ["11-1111111"]
        [⟨"44-4444444", "Ghost Pta", "Ghost ES"⟩]
        [⟨"11-1111111", "A Org", "Washington ES"⟩]) "44-4444444" = 0 ∧
      getName (reconcile ["11-1111111"]
        [⟨"44-4444444", "Ghost Pta", "Ghost ES"⟩]
        [⟨"11-1111111", "A Org", "Washington ES"⟩]) "44-4444444" = none :=
  reconcile_nonprimary_recode_absent
    ["11-1111111"] [⟨"44-4444444", "Ghost Pta", "Ghost ES"⟩]
    [⟨"11-1111111", "A Org", "Washington ES"⟩] "44-4444444"
    ⟨⟨"44-4444444", "Ghost Pta", "Ghost ES"⟩, by decide, rfl⟩
    (by decide) (by decide)

/-! ### Component C: the CALPADS spreadsheet aggregator (`data-merger.ipynb`) -/

/-- A spreadsheet cell: `none` models a missing value (pandas `NaN`). -/
abbrev Cell := Option String

/-- Helper for `normWS`: each maximal whitespace run becomes a single space;
`inRun` records that the previous character belonged to a run already
replaced. -/
def squeezeWS : Bool → List Char → List Char
  | _, [] => []
  | inRun, c :: cs =>
    if c.isWhitespace then
      if inRun then squeezeWS true cs else ' ' :: squeezeWS true cs
    else c :: squeezeWS false cs

/-- `re.sub(r'\s+', ' ', s)` from `load_sheet`. -/
def normWS (s : String) : String := ⟨squeezeWS false s.data⟩

/-- A sheet as `pd.read_excel` returns it: the row pandas consumed as the
header, plus the remaining rows in order. -/
structure RawSheet where
  header : List Cell
  rows : List (List Cell)
  deriving DecidableEq, Repr

/-- A pandas DataFrame: column labels plus rows of cells. -/
structure DF where
  cols : List String
  rows : List (List Cell)
  deriving DecidableEq, Repr

/-- Position of the first column bearing label `c`. -/
def idxOf? (c : String) : List String → Option Nat
  | [] => none
  | x :: xs => if x == c then some 0 else (idxOf? c xs).map (· + 1)

/-- The cell of `row` in the column labelled `c`; a label with no column, or a
position past the row's end, reads as a missing value. -/
def getCellAt (cols : List String) (row : List Cell) (c : String) : Cell :=
  match idxOf? c cols with
  | none => none
  | some i => row.getD i none

/-- `load_sheet` of the notebook: read the sheet, replace the column labels by
the whitespace-normalized values of the first data row (`sheet.iloc[0]`), and
keep exactly the rows whose 'County Name' cell equals 'San Francisco'.
`none` models the exceptions pandas raises on degenerate input: no first data
row for `iloc[0]`, a non-string value under `re.sub`, or no 'County Name'
column for the filter. -/
def load_sheet (raw : RawSheet) : Option DF :=
  match raw.rows with
  | [] => none
  | r0 :: rest =>
    match r0.mapM (fun c => c.map normWS) with
    | none => none
    | some cols =>
      match idxOf? "County Name" cols with
      | none => none
      | some i =>
        some ⟨cols,
          (r0 :: rest).filter (fun row => row.getD i none == some "San Francisco")⟩

/-- The notebook's `sheet_names`. -/
def sheet_names : List String :=
  ["LEA-Level CALPADS UPC Data", "School-Level CALPADS UPC Data"]

/-- The notebook's `school_data_cols` rename map, in key order. -/
def school_data_cols : List (String × String) :=
  [("School Code", "school_code"),
   ("School Name", "school_name"),
   ("School Type", "school_type"),
   ("Low Grade", "grade_low"),
   ("High Grade", "grade_high")]

/-- The notebook's `calpads_data_cols` rename map, in key order. -/
def calpads_data_cols : List (String × String) :=
  [("School Code", "school_code"),
   ("Academic Year", "academic_year"),
   ("Total Enrollment", "enrollment"),
   ("Free & Reduced Meal Program", "frpm_count"),
   ("Foster", "foster_count"),
   ("Tribal Foster Youth", "foster_tribal_count"),
   ("Homeless", "homeless_count"),
   ("Migrant Program", "migrant_program_count"),
   ("Direct Certification", "direct_certification_count"),
   ("Unduplicated FRPM Eligible Count", "frpm_eligible_count"),
   ("English Learner (EL)", "english_learned_count"),
   ("CALPADS Unduplicated Pupil Count (UPC)", "unduplicated_count")]

/-- `sheet[[col for col in cmap.keys() if col in sheet]].rename(columns=cmap)`:
select, in map order, the map's source columns the sheet actually has, and
relabel them with the map's canonical names. -/
def project (df : DF) (cmap : List (String × String)) : DF :=
  ⟨(cmap.filter (fun p => df.cols.contains p.1)).map (fun p => p.2),
   df.rows.map (fun row =>
     (cmap.filter (fun p => df.cols.contains p.1)).map
       (fun p => getCellAt df.cols row p.1))⟩

/-- `drop_duplicates()`: keep the first occurrence of each element. -/
def dropDuplicates {α : Type} [DecidableEq α] (l : List α) : List α :=
  l.foldl (fun acc r => if acc.contains r then acc else acc ++ [r]) []

/-- Align a row laid out for labels `old` with the label list `new`; labels
absent from `old` read as missing values, as `pd.concat` fills them. -/
def realign (old new : List String) (row : List Cell) : List Cell :=
  new.map (fun c => getCellAt old row c)

/-- Column labels of `pd.concat`: the first frame's, then the second's new
ones, in order. -/
def unionCols (a b : List String) : List String :=
  a ++ b.filter (fun c => !a.contains c)

/-- `pd.concat([a, b], axis=0, ignore_index=True)`: stack the rows of both
frames, realigned to the union of the column labels. -/
def concatFrames (a b : DF) : DF :=
  ⟨unionCols a.cols b.cols,
   a.rows.map (realign a.cols (unionCols a.cols b.cols)) ++
     b.rows.map (realign b.cols (unionCols a.cols b.cols))⟩

/-- `calpads_data.assign(source_sheet = v)`: append a constant column. -/
def assignCol (df : DF) (c v : String) : DF :=
  ⟨df.cols ++ [c], df.rows.map (fun row => row ++ [some v])⟩

/-- One iteration of the notebook's inner loop: load the sheet, project both
column maps, fold entity rows into the running entity table with
`drop_duplicates`, and append the metric rows tagged with the sheet's name. -/
def aggStep (acc : DF × DF) (sheetName : String) (raw : RawSheet) :
    Option (DF × DF) :=
  match load_sheet raw with
  | none => none
  | some sheet =>
    some (⟨(concatFrames acc.1 (project sheet school_data_cols)).cols,
        dropDuplicates (concatFrames acc.1 (project sheet school_data_cols)).rows⟩,
      concatFrames acc.2
        (assignCol (project sheet calpads_data_cols) "source_sheet" sheetName))

/-- A workbook file: its sheets, by sheet name. -/
abbrev Workbook := List (String × RawSheet)

/-- The inner `for sheet_name in sheet_names` loop for one file;
`pd.read_excel` raises when the file lacks the sheet, modelled by `none`. -/
def processFile (acc : DF × DF) (wb : Workbook) : Option (DF × DF) :=
  sheet_names.foldlM
    (fun a nm =>
      match wb.lookup nm with
      | none => none
      | some raw => aggStep a nm raw) acc

/-- The outer loop over the raw-data directory, from two empty frames. -/
def aggregateLoop (files : List Workbook) : Option (DF × DF) :=
  files.foldlM processFile (⟨[], []⟩, ⟨[], []⟩)

/-- The entity rows passing the `~pd.isnull(grade_low)` filter of the
notebook's post-pass (`gi`: position of `grade_low`). -/
def survivingSchoolRows (school : DF) (gi : Nat) : List (List Cell) :=
  school.rows.filter (fun r => (r.getD gi none).isSome)

/-- `all_school_data[['school_code']].drop_duplicates()` as a list of cells:
the deduplicated codes of the surviving entity rows (`gi`, `si`: positions of
`grade_low` and `school_code`). -/
def survivingCodes (school : DF) (gi si : Nat) : List Cell :=
  dropDuplicates ((survivingSchoolRows school gi).map (fun r => r.getD si none))

/-- The notebook's post-pass: drop entity rows with a missing `grade_low`,
then `all_calpads_data.merge(all_school_data[['school_code']].drop_duplicates())`
— an inner join keeping exactly the metric rows whose `school_code` is among
the surviving entity codes. `none` models the exceptions pandas raises when a
needed column is absent. -/
def postPass (school calpads : DF) : Option (DF × DF) :=
  match idxOf? "grade_low" school.cols with
  | none => none
  | some gi =>
    match idxOf? "school_code" school.cols with
    | none => none
    | some si =>
      match idxOf? "school_code" calpads.cols with
      | none => none
      | some ci =>
        some (⟨school.cols, survivingSchoolRows school gi⟩,
          ⟨calpads.cols, calpads.rows.filter (fun r =>
            (survivingCodes school gi si).contains (r.getD ci none))⟩)

/-- The whole aggregator: accumulation loop, then post-pass, yielding the
final entity (school) table and metric (calpads) table. -/
def aggregate (files : List Workbook) : Option (DF × DF) :=
  match aggregateLoop files with
  | none => none
  | some (s, c) => postPass s c

/-! ### Lemmas and claims about `load_sheet` -/

theorem load_sheet_eq (raw : RawSheet) (df : DF) (h : load_sheet raw = some df) :
    ∃ r0 rest cols i, raw.rows = r0 :: rest ∧
      r0.mapM (fun c => c.map normWS) = some cols ∧
      idxOf? "County Name" cols = some i ∧
      df = ⟨cols,
        raw.rows.filter (fun row => row.getD i none == some "San Francisco")⟩ := by
  unfold load_sheet at h
  split at h
  · exact Option.noConfusion h
  · rename_i r0 rest heq
    split at h
    · exact Option.noConfusion h
    · rename_i cols hcols
      split at h
      · exact Option.noConfusion h
      · rename_i i hi
        refine ⟨r0, rest, cols, i, heq, hcols, hi, ?_⟩
        rw [heq]
        exact (Option.some_inj.mp h).symm

theorem getCellAt_of_idx (cols : List String) (row : List Cell) (c : String)
    (i : Nat) (hi : idxOf? c cols = some i) :
    getCellAt cols row c = row.getD i none := by
  unfold getCellAt
  rw [hi]

/-- C6: the rows `load_sheet` returns are exactly the sheet's rows whose
'County Name' cell equals the string 'San Francisco' under case-sensitive
equality; in particular every returned row carries exactly that value, and any
row differing in any way is discarded. -/
theorem load_sheet_rows_region_eq (raw : RawSheet) (df : DF)
    (h : load_sheet raw = some df) :
    (∃ i, idxOf? "County Name" df.cols = some i ∧
        df.rows = raw.rows.filter
          (fun row => row.getD i none == some "San Francisco")) ∧
      ∀ row ∈ df.rows, getCellAt df.cols row "County Name" = some "San Francisco" := by
  obtain ⟨r0, rest, cols, i, hrows, hcols, hi, hdf⟩ := load_sheet_eq raw df h
  subst hdf
  refine ⟨⟨i, hi, rfl⟩, ?_⟩
  intro row hrow
  have hpred := List.of_mem_filter hrow
  rw [getCellAt_of_idx cols row "County Name" i hi]
  exact eq_of_beq hpred

/-- C7: `load_sheet` re-derives the column labels from the first data row
beneath the header row pandas consumed: its output's column labels are exactly
the whitespace-normalized (every maximal whitespace run replaced by one space,
via `normWS`) values of that row. -/
theorem load_sheet_cols_from_first_row (raw : RawSheet) (df : DF)
    (h : load_sheet raw = some df) :
    ∃ r0 rest, raw.rows = r0 :: rest ∧
      r0.mapM (fun c => c.map normWS) = some df.cols := by
  obtain ⟨r0, rest, cols, i, hrows, hcols, _, hdf⟩ := load_sheet_eq raw df h
  exact ⟨r0, rest, hrows, by rw [hdf]; exact hcols⟩

/-- C10: `load_sheet` never explicitly removes the row its column labels came
from: that row appears among the returned rows precisely when its own cell in
the 'County Name' column equals 'San Francisco', i.e. it is eliminated only by
the region filter. -/
theorem load_sheet_header_content_row_only_region_filtered
    (raw : RawSheet) (df : DF) (r0 : List Cell) (rest : List (List Cell))
    (hrows : raw.rows = r0 :: rest) (h : load_sheet raw = some df) :
    ∃ i, idxOf? "County Name" df.cols = some i ∧
      (r0 ∈ df.rows ↔ r0.getD i none = some "San Francisco") := by
  obtain ⟨r0', rest', cols, i, hrows', hcols, hi, hdf⟩ := load_sheet_eq raw df h
  subst hdf
  refine ⟨i, hi, ?_⟩
  have hmem_iff : r0 ∈ List.filter
      (fun row => row.getD i none == some "San Francisco") raw.rows ↔
      r0 ∈ raw.rows ∧ (r0.getD i none == some "San Francisco") = true :=
    List.mem_filter
  constructor
  · intro hmem
    exact eq_of_beq (hmem_iff.mp hmem).2
  · intro hcell
    exact hmem_iff.mpr
      ⟨by rw [hrows]; exact List.mem_cons_self r0 rest, beq_iff_eq.mpr hcell⟩

/-- A concrete multi-region sheet for witnesses: untidy whitespace in the
header-content row, one row differing from the target region only in case,
one with a missing low grade. -/
def sheetW : RawSheet := ⟨
  [some "Unnamed: 0", some "Unnamed: 1", some "Unnamed: 2", some "Unnamed: 3"],
  [[some "County  Name", some "School Code", some "Low\tGrade", some "High Grade"],
   [some "San Francisco", some "0101", some "K", some "5"],
   [some "san francisco", some "0303", some "K", some "5"],
   [some "Alameda", some "0202", some "K", some "5"],
   [some "San Francisco", some "0404", none, some "5"]]⟩

/-- What `load_sheet` returns on `sheetW`. -/
def sheetW_df : DF :=
  ⟨["County Name", "School Code", "Low Grade", "High Grade"],
   [[some "San Francisco", some "0101", some "K", some "5"],
    [some "San Francisco", some "0404", none, some "5"]]⟩

/-- Witness for C6: on `sheetW` the returned rows carry exactly
'San Francisco'; the lowercase 'san francisco' row and all other counties were
discarded. -/
theorem load_sheet_rows_region_eq_witness :
    (∃ i, idxOf? "County Name" sheetW_df.cols = some i ∧
        sheetW_df.rows = sheetW.rows.filter
          (fun row => row.getD i none == some "San Francisco")) ∧
      ∀ row ∈ sheetW_df.rows,
        getCellAt sheetW_df.cols row "County Name" = some "San Francisco" :=
  load_sheet_rows_region_eq sheetW sheetW_df (by decide)

/-- Witness for C7: on `sheetW` the column labels are the
whitespace-normalized values of the first data row ('County  Name' became
'County Name', 'Low\tGrade' became 'Low Grade'). -/
theorem load_sheet_cols_from_first_row_witness :
    ∃ r0 rest, sheetW.rows = r0 :: rest ∧
      r0.mapM (fun c => c.map normWS) = some sheetW_df.cols :=
  load_sheet_cols_from_first_row sheetW sheetW_df (by decide)

/-- Witness for C10: on `sheetW` the header-content row is in the output iff
its 'County Name' cell reads 'San Francisco' (here it reads 'County  Name',
so it is filtered out by the region test alone). -/
theorem load_sheet_header_content_row_only_region_filtered_witness :
    ∃ i, idxOf? "County Name" sheetW_df.cols = some i ∧
      (([some "County  Name", some "School Code", some "Low\tGrade",
          some "High Grade"] : List Cell) ∈ sheetW_df.rows ↔
        ([some "County  Name", some "School Code", some "Low\tGrade",
          some "High Grade"] : List Cell).getD i none = some "San Francisco") :=
  load_sheet_header_content_row_only_region_filtered sheetW sheetW_df
    [some "County  Name", some "School Code", some "Low\tGrade", some "High Grade"]
    [[some "San Francisco", some "0101", some "K", some "5"],
     [some "san francisco", some "0303", some "K", some "5"],
     [some "Alameda", some "0202", some "K", some "5"],
     [some "San Francisco", some "0404", none, some "5"]]
    (by rfl) (by decide)

/-! ### Claims about the projection -/

/-- C8: projecting a sheet through a column map never requires the expected
columns to exist: a map entry whose source column the sheet lacks contributes
nothing — removing it from the map leaves the projection unchanged — and the
projected labels are exactly the canonical names of the map entries whose
source column the sheet does have, so nothing fails on a missing column. -/
theorem project_missing_column_omitted (df : DF) (m1 m2 : List (String × String))
    (c c' : String) (hc : ¬ df.cols.contains c) :
    project df (m1 ++ (c, c') :: m2) = project df (m1 ++ m2) ∧
      (project df (m1 ++ (c, c') :: m2)).cols =
        ((m1 ++ m2).filter (fun p => df.cols.contains p.1)).map
          (fun p => p.2) := by
  have hfilter : (m1 ++ (c, c') :: m2).filter (fun p => df.cols.contains p.1) =
      (m1 ++ m2).filter (fun p => df.cols.contains p.1) := by
    have hc' : c ∉ df.cols := by simpa using hc
    rw [List.filter_append, List.filter_append, List.filter_cons]
    simp [hc']
  unfold project
  rw [hfilter]
  exact ⟨rfl, rfl⟩

/-- Witness for C8: `sheetW_df` has no 'School Name' column, so projecting
through the full `school_data_cols` map equals projecting through the map with
that entry removed, and the result keeps only the present columns. -/
theorem project_missing_column_omitted_witness :
    project sheetW_df ([("School Code", "school_code")] ++
        ("School Name", "school_name") ::
        [("School Type", "school_type"), ("Low Grade", "grade_low"),
         ("High Grade", "grade_high")]) =
      project sheetW_df ([("School Code", "school_code")] ++
        [("School Type", "school_type"), ("Low Grade", "grade_low"),
         ("High Grade", "grade_high")]) ∧
      (project sheetW_df ([("School Code", "school_code")] ++
        ("School Name", "school_name") ::
        [("School Type", "school_type"), ("Low Grade", "grade_low"),
         ("High Grade", "grade_high")])).cols =
        (([("School Code", "school_code")] ++
          [("School Type", "school_type"), ("Low Grade", "grade_low"),
           ("High Grade", "grade_high")]).filter
            (fun p => sheetW_df.cols.contains p.1)).map (fun p => p.2) :=
  project_missing_column_omitted sheetW_df
    [("School Code", "school_code")]
    [("School Type", "school_type"), ("Low Grade", "grade_low"),
     ("High Grade", "grade_high")]
    "School Name" "school_name" (by decide)

/-! ### Lemmas about deduplication, label indexing and the accumulation loop -/

theorem dropDuplicates_go_nodup {α : Type} [DecidableEq α] (l acc : List α)
    (h : acc.Nodup) :
    (l.foldl (fun acc r => if acc.contains r then acc else acc ++ [r]) acc).Nodup := by
  induction l generalizing acc with
  | nil => exact h
  | cons x xs ih =>
    rw [List.foldl_cons]
    by_cases hx : acc.contains x
    · rw [if_pos hx]; exact ih _ h
    · rw [if_neg hx]
      refine ih _ ?_
      have hxn : x ∉ acc := by simpa using hx
      simp [List.nodup_append, h, hxn]

theorem dropDuplicates_nodup {α : Type} [DecidableEq α] (l : List α) :
    (dropDuplicates l).Nodup :=
  dropDuplicates_go_nodup l [] List.nodup_nil

theorem mem_dropDuplicates_go {α : Type} [DecidableEq α] (l acc : List α) (x : α) :
    x ∈ l.foldl (fun acc r => if acc.contains r then acc else acc ++ [r]) acc ↔
      x ∈ acc ∨ x ∈ l := by
  induction l generalizing acc with
  | nil => simp
  | cons y ys ih =>
    rw [List.foldl_cons]
    by_cases hy : acc.contains y
    · rw [if_pos hy, ih]
      have hyacc : y ∈ acc := by simpa using hy
      constructor
      · rintro (h | h)
        · exact Or.inl h
        · exact Or.inr (List.mem_cons_of_mem y h)
      · rintro (h | h)
        · exact Or.inl h
        · rcases List.mem_cons.mp h with h | h
          · exact Or.inl (h ▸ hyacc)
          · exact Or.inr h
    · rw [if_neg hy, ih]
      simp [List.mem_append, List.mem_cons, or_assoc]

theorem mem_dropDuplicates {α : Type} [DecidableEq α] (l : List α) (x : α) :
    x ∈ dropDuplicates l ↔ x ∈ l := by
  unfold dropDuplicates
  rw [mem_dropDuplicates_go]
  simp

theorem count_filter_eq {α : Type} [BEq α] [LawfulBEq α] (l : List α) (p : α → Bool)
    (r : α) : (l.filter p).count r = if p r then l.count r else 0 := by
  by_cases hp : p r
  · rw [if_pos hp]
    exact List.count_filter hp
  · rw [if_neg hp]
    refine List.count_eq_zero.mpr ?_
    intro hmem
    exact hp (List.of_mem_filter hmem)

theorem foldlM_option_inv_mem {β γ : Type} (P : γ → Prop) (f : γ → β → Option γ) :
    ∀ (l : List β), (∀ a b a', b ∈ l → P a → f a b = some a' → P a') →
      ∀ a a', P a → l.foldlM f a = some a' → P a' := by
  intro l
  induction l with
  | nil =>
    intro _ a a' hP h
    rw [List.foldlM_nil] at h
    have ha : a = a' := by simpa using h
    exact ha ▸ hP
  | cons x xs ih =>
    intro hf a a' hP h
    rw [List.foldlM_cons] at h
    cases hx : f a x with
    | none => rw [hx] at h; exact Option.noConfusion h
    | some a1 =>
      rw [hx] at h
      exact ih (fun a b a' hb => hf a b a' (List.mem_cons_of_mem x hb)) a1 a'
        (hf a x a1 (List.mem_cons_self x xs) hP hx) (by simpa using h)

theorem idxOf?_some (c : String) (l : List String) (i : Nat)
    (h : idxOf? c l = some i) : ∃ hlt : i < l.length, l.get ⟨i, hlt⟩ = c := by
  induction l generalizing i with
  | nil => exact Option.noConfusion h
  | cons x xs ih =>
    rw [idxOf?] at h
    by_cases hx : (x == c) = true
    · rw [if_pos hx] at h
      have h0 : i = 0 := (Option.some_inj.mp h).symm
      subst h0
      exact ⟨Nat.succ_pos _, eq_of_beq hx⟩
    · rw [if_neg hx] at h
      obtain ⟨j, hj, hji⟩ := Option.map_eq_some'.mp h
      obtain ⟨hlt, hget⟩ := ih j hj
      have hi : i = j + 1 := hji.symm
      subst hi
      refine ⟨by simp only [List.length_cons]; omega, ?_⟩
      exact hget

theorem mem_of_idxOf?_isSome (c : String) (l : List String) (i : Nat)
    (h : idxOf? c l = some i) : c ∈ l := by
  obtain ⟨hlt, hget⟩ := idxOf?_some c l i h
  exact hget ▸ List.get_mem l i hlt

theorem idxOf?_isSome_of_mem (c : String) (l : List String) (h : c ∈ l) :
    ∃ i, idxOf? c l = some i := by
  induction l with
  | nil => cases h
  | cons x xs ih =>
    rw [idxOf?]
    by_cases hx : (x == c) = true
    · exact ⟨0, by rw [if_pos hx]⟩
    · rcases List.mem_cons.mp h with h | h
      · exact absurd (beq_iff_eq.mpr h.symm) hx
      · obtain ⟨i, hi⟩ := ih h
        exact ⟨i + 1, by rw [if_neg hx, hi]; rfl⟩

theorem idxOf?_append_self (c : String) (cols : List String) (hc : c ∉ cols) :
    idxOf? c (cols ++ [c]) = some cols.length := by
  induction cols with
  | nil => simp [idxOf?]
  | cons x xs ih =>
    rw [List.cons_append, idxOf?]
    have hx : ¬ ((x == c) = true) := by
      intro hxc
      exact hc (eq_of_beq hxc ▸ List.mem_cons_self x xs)
    rw [if_neg hx, ih (fun h => hc (List.mem_cons_of_mem x h))]
    rfl

theorem getCellAt_realign (old new : List String) (row : List Cell) (c : String)
    (i : Nat) (hi : idxOf? c new = some i) :
    getCellAt new (realign old new row) c = getCellAt old row c := by
  obtain ⟨hlt, hget⟩ := idxOf?_some c new i hi
  rw [getCellAt_of_idx new (realign old new row) c i hi]
  unfold realign
  rw [List.getD_eq_getElem?_getD, List.getElem?_map,
    List.getElem?_eq_getElem hlt]
  have hgc : new[i] = c := by
    rw [List.get_eq_getElem] at hget
    exact hget
  simp [hgc]

theorem getCellAt_append_last (cols : List String) (row : List Cell) (c : String)
    (v : Cell) (hc : c ∉ cols) (hlen : row.length = cols.length) :
    getCellAt (cols ++ [c]) (row ++ [v]) c = v := by
  rw [getCellAt_of_idx (cols ++ [c]) (row ++ [v]) c cols.length
    (idxOf?_append_self c cols hc), ← hlen]
  rw [List.getD_eq_getElem?_getD, List.getElem?_concat_length]
  rfl

theorem mem_unionCols_of (a b : List String) (c : String) (h : c ∈ a ∨ c ∈ b) :
    c ∈ unionCols a b := by
  unfold unionCols
  rcases h with h | h
  · exact List.mem_append_left _ h
  · by_cases ha : c ∈ a
    · exact List.mem_append_left _ ha
    · refine List.mem_append_right _ ?_
      refine List.mem_filter.mpr ⟨h, ?_⟩
      simpa using ha

theorem aggStep_eq (acc : DF × DF) (nm : String) (raw : RawSheet)
    (acc' : DF × DF) (h : aggStep acc nm raw = some acc') :
    ∃ sheet, load_sheet raw = some sheet ∧
      acc' = (⟨(concatFrames acc.1 (project sheet school_data_cols)).cols,
          dropDuplicates (concatFrames acc.1 (project sheet school_data_cols)).rows⟩,
        concatFrames acc.2
          (assignCol (project sheet calpads_data_cols) "source_sheet" nm)) := by
  unfold aggStep at h
  split at h
  · exact Option.noConfusion h
  · rename_i sheet hsheet
    exact ⟨sheet, hsheet, (Option.some_inj.mp h).symm⟩

theorem postPass_eq (school calpads sF cF : DF)
    (h : postPass school calpads = some (sF, cF)) :
    ∃ gi si ci, idxOf? "grade_low" school.cols = some gi ∧
      idxOf? "school_code" school.cols = some si ∧
      idxOf? "school_code" calpads.cols = some ci ∧
      sF = ⟨school.cols, survivingSchoolRows school gi⟩ ∧
      cF = ⟨calpads.cols, calpads.rows.filter (fun r =>
        (survivingCodes school gi si).contains (r.getD ci none))⟩ := by
  unfold postPass at h
  split at h
  · exact Option.noConfusion h
  · rename_i gi hgi
    split at h
    · exact Option.noConfusion h
    · rename_i si hsi
      split at h
      · exact Option.noConfusion h
      · rename_i ci hci
        obtain ⟨h1, h2⟩ := Prod.mk.injEq .. ▸ Option.some_inj.mp h
        exact ⟨gi, si, ci, hgi, hsi, hci, h1.symm, h2.symm⟩

theorem aggregate_eq (files : List Workbook) (sF cF : DF)
    (h : aggregate files = some (sF, cF)) :
    ∃ s c, aggregateLoop files = some (s, c) ∧ postPass s c = some (sF, cF) := by
  unfold aggregate at h
  split at h
  · exact Option.noConfusion h
  · rename_i s c hloop
    exact ⟨s, c, hloop, h⟩

theorem processFile_inv (P : DF × DF → Prop)
    (hstep : ∀ acc nm raw acc', nm ∈ sheet_names → P acc →
      aggStep acc nm raw = some acc' → P acc')
    (acc : DF × DF) (wb : Workbook) (acc' : DF × DF)
    (hP : P acc) (h : processFile acc wb = some acc') : P acc' := by
  refine foldlM_option_inv_mem P _ sheet_names ?_ acc acc' hP h
  intro a nm a' hnm ha hf
  cases hlook : wb.lookup nm with
  | none => rw [hlook] at hf; exact Option.noConfusion hf
  | some raw =>
    rw [hlook] at hf
    exact hstep a nm raw a' hnm ha hf

theorem aggregateLoop_inv (P : DF × DF → Prop)
    (hstep : ∀ acc nm raw acc', nm ∈ sheet_names → P acc →
      aggStep acc nm raw = some acc' → P acc')
    (hinit : P (⟨[], []⟩, ⟨[], []⟩))
    (files : List Workbook) (out : DF × DF)
    (h : aggregateLoop files = some out) : P out :=
  foldlM_option_inv_mem P processFile files
    (fun a wb a' _ ha hf => processFile_inv P hstep a wb a' ha hf)
    _ out hinit h

/-- C5: the final entity table contains no two identical full-row tuples
(cross-file/sheet exact duplicates collapse) and no row with a missing
low-grade value. -/
theorem entity_table_nodup_and_no_null_grade (files : List Workbook) (sF cF : DF)
    (h : aggregate files = some (sF, cF)) :
    sF.rows.Nodup ∧ ∀ r ∈ sF.rows, getCellAt sF.cols r "grade_low" ≠ none := by
  obtain ⟨s, c, hloop, hpost⟩ := aggregate_eq files sF cF h
  obtain ⟨gi, si, ci, hgi, hsi, hci, hsF, hcF⟩ := postPass_eq s c sF cF hpost
  have hscols : sF.cols = s.cols := by rw [hsF]
  have hsrows : sF.rows = survivingSchoolRows s gi := by rw [hsF]
  have hnodup : s.rows.Nodup := by
    refine aggregateLoop_inv (fun acc => acc.1.rows.Nodup) ?_ List.nodup_nil
      files (s, c) hloop
    intro acc nm raw acc' _ _ hstep
    obtain ⟨sheet, _, hacc'⟩ := aggStep_eq acc nm raw acc' hstep
    subst hacc'
    exact dropDuplicates_nodup _
  constructor
  · rw [hsrows]
    exact List.Nodup.filter _ hnodup
  · intro r hr
    rw [hsrows] at hr
    have hpred := List.of_mem_filter hr
    rw [hscols, getCellAt_of_idx s.cols r "grade_low" gi hgi]
    intro hnone
    rw [hnone] at hpred
    exact Bool.noConfusion hpred

/-- C4: after the post-pass, every school code occurring in the final metric
table also occurs in the final entity table, because the metric table keeps
exactly those accumulated metric rows whose code is among the surviving entity
codes — rows for filtered-out entities are discarded, never null-padded. -/
theorem metric_table_referential_integrity (files : List Workbook) (sF cF : DF)
    (h : aggregate files = some (sF, cF)) :
    (∀ r ∈ cF.rows, ∃ q ∈ sF.rows,
        getCellAt sF.cols q "school_code" = getCellAt cF.cols r "school_code") ∧
      ∃ s c, aggregateLoop files = some (s, c) ∧ ∃ gi si ci,
        idxOf? "grade_low" s.cols = some gi ∧
        idxOf? "school_code" s.cols = some si ∧
        idxOf? "school_code" c.cols = some ci ∧
        cF.rows = c.rows.filter (fun r =>
          (survivingCodes s gi si).contains (r.getD ci none)) := by
  obtain ⟨s, c, hloop, hpost⟩ := aggregate_eq files sF cF h
  obtain ⟨gi, si, ci, hgi, hsi, hci, hsF, hcF⟩ := postPass_eq s c sF cF hpost
  have hscols : sF.cols = s.cols := by rw [hsF]
  have hsrows : sF.rows = survivingSchoolRows s gi := by rw [hsF]
  have hccols : cF.cols = c.cols := by rw [hcF]
  have hcrows : cF.rows = c.rows.filter (fun r =>
      (survivingCodes s gi si).contains (r.getD ci none)) := by rw [hcF]
  constructor
  · intro r hr
    rw [hcrows] at hr
    have hpred := List.of_mem_filter hr
    have hmemcodes : (r.getD ci none) ∈ survivingCodes s gi si := by
      simpa using hpred
    have hmemmap : (r.getD ci none) ∈
        (survivingSchoolRows s gi).map (fun q => q.getD si none) :=
      (mem_dropDuplicates _ _).mp hmemcodes
    obtain ⟨q, hq, hqe⟩ := List.mem_map.mp hmemmap
    refine ⟨q, by rw [hsrows]; exact hq, ?_⟩
    rw [hscols, getCellAt_of_idx s.cols q "school_code" si hsi,
      hccols, getCellAt_of_idx c.cols r "school_code" ci hci]
    exact hqe
  · exact ⟨s, c, hloop, gi, si, ci, hgi, hsi, hci, hcrows⟩

/-- The witnesses' workbook: both expected sheets, both backed by `sheetW`. -/
def wbW : Workbook :=
  [("LEA-Level CALPADS UPC Data", sheetW), ("School-Level CALPADS UPC Data", sheetW)]

/-- The final entity table `aggregate [wbW]` produces. -/
def finalSchoolW : DF :=
  ⟨["school_code", "grade_low", "grade_high"],
   [[some "0101", some "K", some "5"]]⟩

/-- The final metric table `aggregate [wbW]` produces. -/
def finalCalpadsW : DF :=
  ⟨["school_code", "source_sheet"],
   [[some "0101", some "LEA-Level CALPADS UPC Data"],
    [some "0101", some "School-Level CALPADS UPC Data"]]⟩

/-- Witness for C5: on `wbW` (the same sheet twice) the duplicated entity row
collapsed to one and the null-grade entity 0404 is gone. -/
theorem entity_table_nodup_and_no_null_grade_witness :
    finalSchoolW.rows.Nodup ∧
      ∀ r ∈ finalSchoolW.rows, getCellAt finalSchoolW.cols r "grade_low" ≠ none :=
  entity_table_nodup_and_no_null_grade [wbW] finalSchoolW finalCalpadsW (by decide)

/-- Witness for C4: on `wbW` every metric row's code (0101) occurs in the
final entity table; the metric rows of the dropped entity 0404 are gone. -/
theorem metric_table_referential_integrity_witness :
    (∀ r ∈ finalCalpadsW.rows, ∃ q ∈ finalSchoolW.rows,
        getCellAt finalSchoolW.cols q "school_code" =
          getCellAt finalCalpadsW.cols r "school_code") ∧
      ∃ s c, aggregateLoop [wbW] = some (s, c) ∧ ∃ gi si ci,
        idxOf? "grade_low" s.cols = some gi ∧
        idxOf? "school_code" s.cols = some si ∧
        idxOf? "school_code" c.cols = some ci ∧
        finalCalpadsW.rows = c.rows.filter (fun r =>
          (survivingCodes s gi si).contains (r.getD ci none)) :=
  metric_table_referential_integrity [wbW] finalSchoolW finalCalpadsW (by decide)

/-! ### Lemmas for the metric table's no-deduplication claim -/

theorem idxOf?_isSome_of_getCellAt (cols : List String) (row : List Cell)
    (c : String) (v : String) (h : getCellAt cols row c = some v) :
    ∃ i, idxOf? c cols = some i := by
  unfold getCellAt at h
  cases hi : idxOf? c cols with
  | none => rw [hi] at h; exact Option.noConfusion h
  | some i => exact ⟨i, rfl⟩

theorem project_row_length (df : DF) (cmap : List (String × String))
    (row : List Cell) (h : row ∈ (project df cmap).rows) :
    row.length = (project df cmap).cols.length := by
  obtain ⟨r, _, hreq⟩ := List.mem_map.mp h
  rw [← hreq]
  simp [project]

theorem source_sheet_not_in_calpads_projection (df : DF) :
    "source_sheet" ∉ (project df calpads_data_cols).cols := by
  intro h
  obtain ⟨p, hp, hps⟩ := List.mem_map.mp h
  have hpmem : p ∈ calpads_data_cols := List.mem_of_mem_filter hp
  have hmap : p.2 ∈ calpads_data_cols.map (fun q => q.2) :=
    List.mem_map_of_mem _ hpmem
  rw [hps] at hmap
  exact absurd hmap (by decide)

theorem assignCol_tag (df : DF) (t v : String) (ht : t ∉ df.cols)
    (hlen : ∀ row ∈ df.rows, row.length = df.cols.length) :
    ∀ row ∈ (assignCol df t v).rows,
      getCellAt (assignCol df t v).cols row t = some v := by
  intro row hrow
  obtain ⟨pr, hpr, hpreq⟩ := List.mem_map.mp hrow
  show getCellAt (df.cols ++ [t]) row t = some v
  rw [← hpreq]
  exact getCellAt_append_last df.cols pr t (some v) ht (hlen pr hpr)

theorem concatFrames_tag (a b : DF) (t : String)
    (ha : ∀ row ∈ a.rows, ∃ s ∈ sheet_names, getCellAt a.cols row t = some s)
    (hb : ∀ row ∈ b.rows, ∃ s ∈ sheet_names, getCellAt b.cols row t = some s) :
    ∀ row ∈ (concatFrames a b).rows, ∃ s ∈ sheet_names,
      getCellAt (concatFrames a b).cols row t = some s := by
  intro row hrow
  have hrow' : row ∈ a.rows.map (realign a.cols (unionCols a.cols b.cols)) ++
      b.rows.map (realign b.cols (unionCols a.cols b.cols)) := hrow
  show ∃ s ∈ sheet_names, getCellAt (unionCols a.cols b.cols) row t = some s
  rcases List.mem_append.mp hrow' with hold | hnew
  · obtain ⟨r0, hr0, hreq⟩ := List.mem_map.mp hold
    obtain ⟨s, hs, hgs⟩ := ha r0 hr0
    obtain ⟨i, hi⟩ := idxOf?_isSome_of_getCellAt a.cols r0 t s hgs
    obtain ⟨j, hj⟩ := idxOf?_isSome_of_mem t _
      (mem_unionCols_of a.cols b.cols t (Or.inl (mem_of_idxOf?_isSome t a.cols i hi)))
    refine ⟨s, hs, ?_⟩
    rw [← hreq, getCellAt_realign a.cols (unionCols a.cols b.cols) r0 t j hj]
    exact hgs
  · obtain ⟨r0, hr0, hreq⟩ := List.mem_map.mp hnew
    obtain ⟨s, hs, hgs⟩ := hb r0 hr0
    obtain ⟨i, hi⟩ := idxOf?_isSome_of_getCellAt b.cols r0 t s hgs
    obtain ⟨j, hj⟩ := idxOf?_isSome_of_mem t _
      (mem_unionCols_of a.cols b.cols t (Or.inr (mem_of_idxOf?_isSome t b.cols i hi)))
    refine ⟨s, hs, ?_⟩
    rw [← hreq, getCellAt_realign b.cols (unionCols a.cols b.cols) r0 t j hj]
    exact hgs

theorem aggStep_tag (acc : DF × DF) (nm : String) (raw : RawSheet) (acc' : DF × DF)
    (hnm : nm ∈ sheet_names)
    (hP : ∀ row ∈ acc.2.rows, ∃ s ∈ sheet_names,
      getCellAt acc.2.cols row "source_sheet" = some s)
    (h : aggStep acc nm raw = some acc') :
    ∀ row ∈ acc'.2.rows, ∃ s ∈ sheet_names,
      getCellAt acc'.2.cols row "source_sheet" = some s := by
  obtain ⟨sheet, _, hacc'⟩ := aggStep_eq acc nm raw acc' h
  subst hacc'
  refine concatFrames_tag acc.2 _ "source_sheet" hP ?_
  intro row hrow
  exact ⟨nm, hnm,
    assignCol_tag (project sheet calpads_data_cols) "source_sheet" nm
      (source_sheet_not_in_calpads_projection sheet)
      (fun r hr => project_row_length sheet calpads_data_cols r hr) row hrow⟩

theorem aggStep_metric_length (acc : DF × DF) (nm : String) (raw : RawSheet)
    (acc' : DF × DF) (h : aggStep acc nm raw = some acc') :
    ∃ sheet, load_sheet raw = some sheet ∧
      acc'.2.rows.length = acc.2.rows.length + sheet.rows.length := by
  obtain ⟨sheet, hsheet, hacc'⟩ := aggStep_eq acc nm raw acc' h
  subst hacc'
  refine ⟨sheet, hsheet, ?_⟩
  show (concatFrames acc.2
    (assignCol (project sheet calpads_data_cols) "source_sheet" nm)).rows.length = _
  simp [concatFrames, assignCol, project]

theorem aggStep_metric_rows (acc : DF × DF) (nm : String) (raw : RawSheet)
    (acc' : DF × DF) (h : aggStep acc nm raw = some acc') :
    ∃ sheet, load_sheet raw = some sheet ∧
      ∃ newRows : List (List Cell),
        acc'.2.rows = acc.2.rows.map (realign acc.2.cols acc'.2.cols) ++ newRows ∧
        newRows.length = sheet.rows.length ∧
        (∀ row ∈ newRows, getCellAt acc'.2.cols row "source_sheet" = some nm) ∧
        (∀ row ∈ acc.2.rows, ∀ t : String,
          getCellAt acc.2.cols row "source_sheet" = some t →
          getCellAt acc'.2.cols (realign acc.2.cols acc'.2.cols row)
            "source_sheet" = some t) := by
  obtain ⟨sheet, hsheet, hacc'⟩ := aggStep_eq acc nm raw acc' h
  subst hacc'
  refine ⟨sheet, hsheet,
    (assignCol (project sheet calpads_data_cols) "source_sheet" nm).rows.map
      (realign (assignCol (project sheet calpads_data_cols) "source_sheet" nm).cols
        (unionCols acc.2.cols
          (assignCol (project sheet calpads_data_cols) "source_sheet" nm).cols)),
    rfl, ?_, ?_, ?_⟩
  · simp [assignCol, project]
  · intro row hrow
    obtain ⟨r0, hr0, hreq⟩ := List.mem_map.mp hrow
    have htag := assignCol_tag (project sheet calpads_data_cols) "source_sheet" nm
      (source_sheet_not_in_calpads_projection sheet)
      (fun r hr => project_row_length sheet calpads_data_cols r hr) r0 hr0
    obtain ⟨j, hj⟩ := idxOf?_isSome_of_mem "source_sheet"
      (unionCols acc.2.cols
        (assignCol (project sheet calpads_data_cols) "source_sheet" nm).cols)
      (mem_unionCols_of acc.2.cols _ "source_sheet"
        (Or.inr (List.mem_append_right _ (List.mem_singleton.mpr rfl))))
    show getCellAt (unionCols acc.2.cols
      (assignCol (project sheet calpads_data_cols) "source_sheet" nm).cols)
      row "source_sheet" = some nm
    rw [← hreq, getCellAt_realign _ _ r0 "source_sheet" j hj]
    exact htag
  · intro row hrow t ht
    obtain ⟨i, hi⟩ := idxOf?_isSome_of_getCellAt acc.2.cols row "source_sheet" t ht
    obtain ⟨j, hj⟩ := idxOf?_isSome_of_mem "source_sheet"
      (unionCols acc.2.cols
        (assignCol (project sheet calpads_data_cols) "source_sheet" nm).cols)
      (mem_unionCols_of acc.2.cols _ "source_sheet"
        (Or.inl (mem_of_idxOf?_isSome "source_sheet" acc.2.cols i hi)))
    show getCellAt (unionCols acc.2.cols
      (assignCol (project sheet calpads_data_cols) "source_sheet" nm).cols)
      (realign acc.2.cols (unionCols acc.2.cols
        (assignCol (project sheet calpads_data_cols) "source_sheet" nm).cols) row)
      "source_sheet" = some t
    rw [getCellAt_realign _ _ row "source_sheet" j hj]
    exact ht

theorem postPass_metric_counts (s c sF cF : DF) (h : postPass s c = some (sF, cF)) :
    ∃ gi si ci, idxOf? "grade_low" s.cols = some gi ∧
      idxOf? "school_code" s.cols = some si ∧
      idxOf? "school_code" c.cols = some ci ∧
      ∀ r : List Cell, cF.rows.count r =
        if (survivingCodes s gi si).contains (r.getD ci none)
        then c.rows.count r else 0 := by
  obtain ⟨gi, si, ci, hgi, hsi, hci, hsF, hcF⟩ := postPass_eq s c sF cF h
  refine ⟨gi, si, ci, hgi, hsi, hci, ?_⟩
  intro r
  have hcrows : cF.rows = c.rows.filter (fun q =>
      (survivingCodes s gi si).contains (q.getD ci none)) := by rw [hcF]
  rw [hcrows]
  exact count_filter_eq c.rows _ r

/-- C9: metric rows are never deduplicated: every accumulation step appends
the loaded sheet's metric rows one-for-one, each newly appended row tagged in
its `source_sheet` cell with the name of the very sheet that contributed it,
and the realignment of previously accumulated rows preserves their tags (so
every row permanently carries its own source sheet's name); every accumulated
metric row carries a tag drawn from `sheet_names`; and the final
referential-integrity join (taken against the deduplicated surviving codes)
keeps each surviving accumulated row exactly as many times as it was
accumulated, while rows with non-surviving codes are dropped. -/
theorem metric_rows_not_deduplicated :
    (∀ acc nm raw acc', aggStep acc nm raw = some acc' →
      ∃ sheet, load_sheet raw = some sheet ∧
        acc'.2.rows.length = acc.2.rows.length + sheet.rows.length ∧
        ∃ newRows : List (List Cell),
          acc'.2.rows = acc.2.rows.map (realign acc.2.cols acc'.2.cols) ++ newRows ∧
          newRows.length = sheet.rows.length ∧
          (∀ row ∈ newRows, getCellAt acc'.2.cols row "source_sheet" = some nm) ∧
          (∀ row ∈ acc.2.rows, ∀ t : String,
            getCellAt acc.2.cols row "source_sheet" = some t →
            getCellAt acc'.2.cols (realign acc.2.cols acc'.2.cols row)
              "source_sheet" = some t)) ∧
    (∀ files s c, aggregateLoop files = some (s, c) →
      ∀ row ∈ c.rows, ∃ nm ∈ sheet_names,
        getCellAt c.cols row "source_sheet" = some nm) ∧
    (∀ s c sF cF, postPass s c = some (sF, cF) →
      ∃ gi si ci, idxOf? "grade_low" s.cols = some gi ∧
        idxOf? "school_code" s.cols = some si ∧
        idxOf? "school_code" c.cols = some ci ∧
        ∀ r : List Cell, cF.rows.count r =
          if (survivingCodes s gi si).contains (r.getD ci none)
          then c.rows.count r else 0) := by
  refine ⟨?_, ?_, ?_⟩
  · intro acc nm raw acc' h
    obtain ⟨sheet, hsheet, hlen⟩ := aggStep_metric_length acc nm raw acc' h
    obtain ⟨sheet', hsheet', hrest⟩ := aggStep_metric_rows acc nm raw acc' h
    have hss : sheet' = sheet := Option.some_inj.mp (hsheet'.symm.trans hsheet)
    subst hss
    exact ⟨sheet', hsheet, hlen, hrest⟩
  · intro files s c hloop
    exact aggregateLoop_inv
      (fun acc => ∀ row ∈ acc.2.rows, ∃ nm ∈ sheet_names,
        getCellAt acc.2.cols row "source_sheet" = some nm)
      (fun acc nm raw acc' hnm hP h => aggStep_tag acc nm raw acc' hnm hP h)
      (by intro row hrow; cases hrow)
      files (s, c) hloop
  · intro s c sF cF h
    exact postPass_metric_counts s c sF cF h

/-- The entity table `aggregateLoop [wbW]` accumulates before the post-pass. -/
def loopSchoolW : DF :=
  ⟨["school_code", "grade_low", "grade_high"],
   [[some "0101", some "K", some "5"], [some "0404", none, some "5"]]⟩

/-- The metric table `aggregateLoop [wbW]` accumulates before the post-pass. -/
def loopCalpadsW : DF :=
  ⟨["school_code", "source_sheet"],
   [[some "0101", some "LEA-Level CALPADS UPC Data"],
    [some "0404", some "LEA-Level CALPADS UPC Data"],
    [some "0101", some "School-Level CALPADS UPC Data"],
    [some "0404", some "School-Level CALPADS UPC Data"]]⟩

/-- One aggregation step on the empty accumulator over `sheetW`. -/
def stepW : DF × DF :=
  (⟨["school_code", "grade_low", "grade_high"],
    [[some "0101", some "K", some "5"], [some "0404", none, some "5"]]⟩,
   ⟨["school_code", "source_sheet"],
    [[some "0101", some "LEA-Level CALPADS UPC Data"],
     [some "0404", some "LEA-Level CALPADS UPC Data"]]⟩)

/-- Witness for C9: one step on the empty accumulator appends both of
`sheetW`'s surviving metric rows one-for-one, each tagged with the name of
the contributing sheet ('LEA-Level CALPADS UPC Data'); on `[wbW]` all four
accumulated rows carry a tag from `sheet_names`; the join keeps each
surviving row with its accumulated multiplicity (here: twice for the 0101
row) and drops the 0404 rows. -/
theorem metric_rows_not_deduplicated_witness :
    (∃ sheet, load_sheet sheetW = some sheet ∧
        stepW.2.rows.length =
          ((⟨[], []⟩ : DF), (⟨[], []⟩ : DF)).2.rows.length + sheet.rows.length ∧
        ∃ newRows : List (List Cell),
          stepW.2.rows = ((⟨[], []⟩ : DF), (⟨[], []⟩ : DF)).2.rows.map
              (realign ((⟨[], []⟩ : DF), (⟨[], []⟩ : DF)).2.cols stepW.2.cols) ++
            newRows ∧
          newRows.length = sheet.rows.length ∧
          (∀ row ∈ newRows, getCellAt stepW.2.cols row "source_sheet" =
            some "LEA-Level CALPADS UPC Data") ∧
          (∀ row ∈ ((⟨[], []⟩ : DF), (⟨[], []⟩ : DF)).2.rows, ∀ t : String,
            getCellAt ((⟨[], []⟩ : DF), (⟨[], []⟩ : DF)).2.cols row
              "source_sheet" = some t →
            getCellAt stepW.2.cols
              (realign ((⟨[], []⟩ : DF), (⟨[], []⟩ : DF)).2.cols stepW.2.cols row)
              "source_sheet" = some t)) ∧
    (∀ row ∈ loopCalpadsW.rows, ∃ nm ∈ sheet_names,
        getCellAt loopCalpadsW.cols row "source_sheet" = some nm) ∧
    (∃ gi si ci, idxOf? "grade_low" loopSchoolW.cols = some gi ∧
        idxOf? "school_code" loopSchoolW.cols = some si ∧
        idxOf? "school_code" loopCalpadsW.cols = some ci ∧
        ∀ r : List Cell, finalCalpadsW.rows.count r =
          if (survivingCodes loopSchoolW gi si).contains (r.getD ci none)
          then loopCalpadsW.rows.count r else 0) :=
  ⟨metric_rows_not_deduplicated.1 ((⟨[], []⟩ : DF), (⟨[], []⟩ : DF))
      "LEA-Level CALPADS UPC Data" sheetW stepW (by decide),
   metric_rows_not_deduplicated.2.1 [wbW] loopSchoolW loopCalpadsW (by decide),
   metric_rows_not_deduplicated.2.2 loopSchoolW loopCalpadsW finalSchoolW
      finalCalpadsW (by decide)⟩
